import Mathlib

/-!
Shallow embedding of the Twilio–ElevenLabs audio bridge in `src/server.js`.

Audio samples are modelled as `Int` (every value this program writes into an
`Int16Array` is already in the signed 16-bit range, so no wrap is needed) and
bytes as `Nat` below 256.  The Node `Buffer` base64 codec used by
`slice.toString('base64')` and `Buffer.from(s, 'base64')` is modelled by
`b64Encode` / `b64DecodeBytes`.  Fallible JS operations are modelled with
`Option`: `upsample8kTo16k` returns `none` exactly where the source throws
(allocating `Int16Array(-1)` on empty input raises a RangeError).  The two
WebSocket message handlers are modelled as pure step functions from session
state and a parsed message to a new state plus a list of observable actions;
each handler body runs inside `try { ... } catch` in the source, so branches
that throw in JS are mapped to the catch behaviour (drop, keep state mutated
so far).
-/

namespace Bridge

/-- JS truthiness of a possibly-absent string: `undefined`, `null` and `""`
are falsy, every other string is truthy. -/
def truthyS : Option String → Bool
  | none => false
  | some s => s != ""

/-- JS `a || b` on possibly-absent strings: the first operand if truthy,
otherwise the second operand (even when that is also falsy). -/
def jsOr (a b : Option String) : Option String :=
  match a with
  | some s => if s = "" then b else some s
  | none => b

/-- Standard base64 alphabet, as used by Node `Buffer` base64. -/
def b64Alphabet : List Char :=
  "ABCDEFGHIJKLMNOPQRSTUVWXYZabcdefghijklmnopqrstuvwxyz0123456789+/".toList

/-- Character for one 6-bit value. -/
def b64Char (n : Nat) : Char := b64Alphabet.getD n 'A'

/-- Base64 encoding of a byte list with `=` padding, modelling
`Buffer.toString('base64')`. -/
def b64Encode : List Nat → List Char
  | [] => []
  | [a] => [b64Char (a / 4), b64Char (a % 4 * 16), '=', '=']
  | [a, b] => [b64Char (a / 4), b64Char (a % 4 * 16 + b / 16), b64Char (b % 16 * 4), '=']
  | a :: b :: c :: rest =>
      b64Char (a / 4) :: b64Char (a % 4 * 16 + b / 16) ::
        b64Char (b % 16 * 4 + c / 64) :: b64Char (c % 64) :: b64Encode rest

/-- Index of a character in the base64 alphabet; `none` for `=` and any other
character, which Node base64 decoding skips. -/
def b64Idx (c : Char) : Option Nat := b64Alphabet.findIdx? (fun d => d == c)

/-- Regroup 6-bit values into bytes: four values give three bytes, a trailing
group of three or two values gives two bytes or one, a lone value nothing. -/
def b64Regroup : List Nat → List Nat
  | w :: x :: y :: z :: rest =>
      (w * 4 + x / 16) :: (x % 16 * 16 + y / 4) :: (y % 4 * 64 + z) :: b64Regroup rest
  | [w, x, y] => [w * 4 + x / 16, x % 16 * 16 + y / 4]
  | [w, x] => [w * 4 + x / 16]
  | _ => []

/-- Decoded bytes of a base64 string, modelling `Buffer.from(s, 'base64')`:
characters outside the alphabet (including padding) are skipped, then the
6-bit values are packed into bytes. -/
def b64DecodeBytes (s : String) : List Nat := b64Regroup (s.toList.filterMap b64Idx)

/-- Source `muLawDecode` (src/server.js:28): complement the byte, split it
into sign, exponent and mantissa fields, reconstruct the magnitude as
`((mantissa<<1)+1) << (exponent+2)` and subtract the bias `0x84`.  For byte
input `255 - uVal % 256` equals the JS `~uVal & 0xff`. -/
def muLawDecode (uVal : Nat) : Int :=
  let u := 255 - uVal % 256
  let sign : Int := if u &&& 0x80 ≠ 0 then -1 else 1
  let exponent := (u >>> 4) &&& 0x07
  let mantissa := u &&& 0x0F
  let magnitude : Nat := ((mantissa <<< 1) + 1) <<< (exponent + 2)
  sign * ((magnitude : Int) - 0x84)

/-- Exponent scan of source `muLawEncode` (src/server.js:43): start at
exponent 7 with mask `0x4000` and step down while the masked bit of the
biased magnitude is clear; exponent `e` carries mask `2^(e+7)`. -/
def muLawExpScan (s : Nat) : Nat → Nat
  | 0 => 0
  | e + 1 => if s &&& (1 <<< (e + 8)) ≠ 0 then e + 1 else muLawExpScan s e

/-- Source `muLawEncode` (src/server.js:36): clamp to the signed 16-bit
range, record the sign, take the magnitude, add the bias `0x84`, clamp to
`0x7fff`, locate the exponent, slice out a 4-bit mantissa and complement the
packed byte (`~x & 0xff` is `255 - x % 256` for the nonnegative `x` built
here). -/
def muLawEncode (sample : Int) : Nat :=
  let s0 := max (-32768) (min 32767 sample)
  let sign : Nat := if s0 < 0 then 0x80 else 0
  let s1 := if s0 < 0 then -s0 else s0
  let s2 := s1 + 0x84
  let s3 : Nat := if s2 > 0x7fff then 0x7fff else s2.toNat
  let exponent := muLawExpScan s3 7
  let mantissa := (s3 >>> (exponent + 3)) &&& 0x0F
  255 - (sign ||| (exponent <<< 4) ||| mantissa) % 256

/-- Loop of source `upsample8kTo16k` (src/server.js:50): for each adjacent
pair emit the first sample and `(a+b)>>1`, then the final sample once; on the
in-range sums arising here the JS arithmetic shift is floor division by 2,
which is `Int` division by the positive constant 2. -/
def upsampleCore : List Int → List Int
  | [] => []
  | [a] => [a]
  | a :: b :: rest => a :: (a + b) / 2 :: upsampleCore (b :: rest)

/-- Source `upsample8kTo16k` (src/server.js:47): allocates
`Int16Array(pcm8.length * 2 - 1)`, which throws a RangeError on empty input
(length −1); `none` models that throw. -/
def upsample8kTo16k (pcm8 : List Int) : Option (List Int) :=
  if pcm8 = [] then none else some (upsampleCore pcm8)

/-- Source `downsample16kTo8k` (src/server.js:58): average consecutive
non-overlapping pairs with `(a+b)>>1`; a trailing odd sample is dropped
because the output length is `floor(n/2)`. -/
def downsample16kTo8k : List Int → List Int
  | a :: b :: rest => (a + b) / 2 :: downsample16kTo8k rest
  | _ => []

/-- Signed reinterpretation of a 16-bit value, as in `DataView.getInt16`. -/
def toInt16 (n : Nat) : Int :=
  if n % 65536 < 32768 then (n % 65536 : Int) else (n % 65536 : Int) - 65536

/-- Byte pairs to 16-bit samples in the given endianness; a trailing odd byte
is dropped since `new Int16Array(buf.byteLength / 2)` truncates the length. -/
def pairsToInt16 (little : Bool) : List Nat → List Int
  | b0 :: b1 :: rest =>
      (if little then toInt16 (b0 + 256 * b1) else toInt16 (256 * b0 + b1)) ::
        pairsToInt16 little rest
  | _ => []

/-- Source `b64Pcm16ToInt16` (src/server.js:77). -/
def b64Pcm16ToInt16 (b64 : String) (little : Bool) : List Int :=
  pairsToInt16 little (b64DecodeBytes b64)

/-- Two's-complement byte pair of one in-range 16-bit sample, as written by
`Buffer.writeInt16LE` / `writeInt16BE`. -/
def int16Bytes (little : Bool) (s : Int) : List Nat :=
  let u := (s % 65536).toNat
  if little then [u % 256, u / 256] else [u / 256, u % 256]

/-- Source `int16ToB64Pcm16` (src/server.js:84). -/
def int16ToB64Pcm16 (arr : List Int) (little : Bool) : String :=
  String.mk (b64Encode (arr.flatMap (int16Bytes little)))

/-- Source `twilioB64MuLawToPcm8k` (src/server.js:66). -/
def twilioB64MuLawToPcm8k (b64 : String) : List Int :=
  (b64DecodeBytes b64).map muLawDecode

/-- Source `pcm8kToMuLawBuffer` (src/server.js:72). -/
def pcm8kToMuLawBuffer (pcm : List Int) : List Nat := pcm.map muLawEncode

/-- Custom parameters as delivered on the wire: an ordered list of
`{name, value}` pairs, or a flat key/value object (association list with
unique keys). -/
inductive CustomParams where
  | arr (pairs : List (String × String))
  | obj (entries : List (String × String))
deriving DecidableEq

/-- JS object property assignment `a[k] = v`: overwrite the value of an
existing key in place, otherwise append the new key. -/
def objInsert (m : List (String × String)) (k v : String) : List (String × String) :=
  if m.any (fun p => p.fst == k) then m.map (fun p => if p.fst == k then (k, v) else p)
  else m ++ [(k, v)]

/-- Source `getCustomParams` (src/server.js:93): absent input gives `{}`; an
array is reduced into an object keyed by each entry's `name`; an object is
returned as is. -/
def getCustomParams : Option CustomParams → List (String × String)
  | none => []
  | some (.arr pairs) => pairs.foldl (fun a c => objInsert a c.fst c.snd) []
  | some (.obj entries) => entries

/-- Fields of a parsed `start` envelope that the handler reads; `none` models
an absent field, including the case where the whole `msg.start` object is
absent. -/
structure StartMsg where
  streamSid : Option String
  topStreamSid : Option String
  accountSid : Option String
  customParameters : Option CustomParams
deriving DecidableEq

/-- Parsed inbound (Twilio) message as the handler dispatches on it;
`unparseable` models a text frame on which `JSON.parse` throws, `other` any
envelope matching no branch. -/
inductive TwMsgIn where
  | unparseable
  | start (s : StartMsg)
  | media (payload : Option String)
  | stop
  | other
deriving DecidableEq

/-- Parsed outbound-leg (ElevenLabs) message as the handler dispatches on it. -/
inductive ElMsgIn where
  | unparseable
  | ping (eventId : Option String)
  | audio (b64 : Option String)
  | other
deriving DecidableEq

/-- Envelope sent to the inbound (Twilio) leg. -/
inductive TwEnvelope where
  | media (sid : Option String) (payload : String)
  | mark (sid : Option String) (name : String)
deriving DecidableEq

/-- Message sent to the outbound (ElevenLabs) leg. -/
inductive ElevenOut where
  | pong (eventId : String)
  | userAudioChunk (b64 : String)
deriving DecidableEq

/-- Observable actions of the session handlers. -/
inductive Output where
  | toEleven (m : ElevenOut)
  | toTwilio (env : TwEnvelope)
  | closeTwilio (code : Nat) (reason : String)
  | closeEleven (code : Nat) (reason : String)
  | dialEleven (agentId : String)
deriving DecidableEq

/-- Process-wide counters (src/server.js:12). -/
structure Metrics where
  twilioConnections : Nat
  elevenConnections : Nat
  bytesFromTwilio : Nat
  bytesToTwilio : Nat
  chunksFrom11L : Nat
  chunksFromTwilio : Nat
deriving DecidableEq

/-- Per-session mutable state (src/server.js:104-106) plus the process
metrics.  `elevenDialed` models `elevenWS !== null` and `elevenOpen` models
`elevenWS && elevenWS.readyState === OPEN`. -/
structure SessionState where
  streamSid : Option String
  agentId : Option String
  elevenDialed : Bool
  elevenOpen : Bool
  metrics : Metrics
deriving DecidableEq

/-- Deployment configuration read from the environment (src/server.js:7-9 and
165, 173): `TWILIO_ACCOUNT_SID` and `ELEVENLABS_AGENT_ID` (absent models an
unset variable) and the decoded `ELEVEN_PCM_ENDIAN` switch, `true` for
little-endian. -/
structure Config where
  twilioAccountSid : Option String
  elevenAgentId : Option String
  elevenLE : Bool
deriving DecidableEq

/-- Structural worker for the frame-pacer loop: `fuel` is an upper bound on
the buffer length, so the recursion is structural and computable by the
kernel. -/
def chunk160Go : Nat → List Nat → List (List Nat)
  | _, [] => []
  | 0, _ :: _ => []
  | fuel + 1, l => l.take 160 :: chunk160Go fuel (l.drop 160)

/-- Slices taken by the frame-pacer loop (src/server.js:114): consecutive
160-byte chunks, the last possibly shorter. -/
def chunk160 (l : List Nat) : List (List Nat) := chunk160Go l.length l

/-- Source `sendTwMediaFrames` (src/server.js:111): one base64 `media`
envelope per 160-byte slice, then exactly one `mark` envelope named from the
clock; the second component is the total added to `metrics.bytesToTwilio`,
accumulated per slice in the source loop. -/
def sendTwMediaFrames (sid : Option String) (now : Nat) (ulawBuf : List Nat) :
    List Output × Nat :=
  ((chunk160 ulawBuf).map
      (fun slice => Output.toTwilio (TwEnvelope.media sid (String.mk (b64Encode slice))))
    ++ [Output.toTwilio (TwEnvelope.mark sid ("ll-" ++ toString now))],
   ((chunk160 ulawBuf).map List.length).sum)

/-- Stream identifier computed by the start branch (src/server.js:162):
`msg.start?.streamSid || msg.streamSid`. -/
def startSidOf (s : StartMsg) : Option String := jsOr s.streamSid s.topStreamSid

/-- Account rejection test (src/server.js:165): the expected account
identifier is configured (truthy) and the envelope's accountSid is not
strictly equal to it. -/
def acctMismatch (cfg : Config) (s : StartMsg) : Bool :=
  match cfg.twilioAccountSid with
  | none => false
  | some e => e != "" && s.accountSid != some e

/-- Per-call token looked up in the normalized custom parameters
(src/server.js:172). -/
def tokenOf (s : StartMsg) : Option String :=
  (getCustomParams s.customParameters).lookup "token"

/-- Agent resolution (src/server.js:173):
`cp.agent_id || process.env.ELEVENLABS_AGENT_ID`. -/
def resolvedAgent (cfg : Config) (s : StartMsg) : Option String :=
  jsOr ((getCustomParams s.customParameters).lookup "agent_id") cfg.elevenAgentId

/-- Inbound (Twilio) per-message handler (src/server.js:157-196).  The whole
body runs inside `try { ... } catch`; `unparseable` (a `JSON.parse` throw)
and the empty-audio `upsample8kTo16k` throw land in the catch, which logs and
drops, so every branch ends in a normal state carrying any mutations made
before the throw. -/
def twStep (cfg : Config) (st : SessionState) : TwMsgIn → SessionState × List Output
  | .unparseable => (st, [])
  | .start s =>
      let st1 := { st with streamSid := startSidOf s }
      if acctMismatch cfg s then (st1, [Output.closeTwilio 1008 "bad account"])
      else
        let agent := resolvedAgent cfg s
        let st2 := { st1 with agentId := agent }
        if truthyS agent = false then (st2, [Output.closeTwilio 1008 "Missing agent_id"])
        else if truthyS (tokenOf s) = false then
          (st2, [Output.closeTwilio 1008 "Missing token"])
        else
          ({ st2 with
              elevenDialed := true
              metrics := { st2.metrics with
                elevenConnections := st2.metrics.elevenConnections + 1 } },
           [Output.dialEleven (agent.getD "")])
  | .media payload =>
      if truthyS payload then
        let bytes := b64DecodeBytes (payload.getD "")
        let st1 := { st with metrics :=
          { st.metrics with
              bytesFromTwilio := st.metrics.bytesFromTwilio + bytes.length
              chunksFromTwilio := st.metrics.chunksFromTwilio + 1 } }
        match upsample8kTo16k (bytes.map muLawDecode) with
        | none => (st1, [])
        | some pcm16 =>
            if st.elevenOpen then
              (st1, [Output.toEleven
                (ElevenOut.userAudioChunk (int16ToB64Pcm16 pcm16 cfg.elevenLE))])
            else (st1, [])
      else (st, [])
  | .stop => (st, if st.elevenDialed then [Output.closeEleven 1000 "Twilio stop"] else [])
  | .other => (st, [])

/-- Outbound-leg (ElevenLabs) per-message handler (src/server.js:131-151),
likewise fully inside `try/catch`.  `now` is the clock value read by the
`mark` name. -/
def elStep (cfg : Config) (st : SessionState) (now : Nat) :
    ElMsgIn → SessionState × List Output
  | .unparseable => (st, [])
  | .ping eventId =>
      match eventId with
      | some e => (st, [Output.toEleven (ElevenOut.pong e)])
      | none => (st, [])
  | .audio b64 =>
      if truthyS b64 then
        let st1 := { st with metrics :=
          { st.metrics with chunksFrom11L := st.metrics.chunksFrom11L + 1 } }
        let pcm16 := b64Pcm16ToInt16 (b64.getD "") cfg.elevenLE
        let ulaw := pcm8kToMuLawBuffer (downsample16kTo8k pcm16)
        if truthyS st.streamSid then
          let fr := sendTwMediaFrames st.streamSid now ulaw
          ({ st1 with metrics := { st1.metrics with
              bytesToTwilio := st1.metrics.bytesToTwilio + fr.snd } },
           fr.fst)
        else (st1, [])
      else (st, [])
  | .other => (st, [])

/-- One external event delivered to the session: a text frame on either leg,
or the outbound socket reporting open (the transport flips `readyState`; the
source registers no `open` handler).  Outbound-leg events can only occur once
`connectEleven` has created the socket, which the guard in `step` enforces. -/
inductive Event where
  | twilio (m : TwMsgIn)
  | eleven (now : Nat) (m : ElMsgIn)
  | elevenOpened
deriving DecidableEq

/-- Dispatch of one event against the session. -/
def step (cfg : Config) (st : SessionState) : Event → SessionState × List Output
  | .twilio m => twStep cfg st m
  | .eleven now m => if st.elevenDialed then elStep cfg st now m else (st, [])
  | .elevenOpened => if st.elevenDialed then ({ st with elevenOpen := true }, []) else (st, [])

/-- State of a fresh session (src/server.js:104-106): no streamSid, no agent,
no outbound socket; the process metrics are whatever they already were. -/
def initState (m : Metrics) : SessionState :=
  { streamSid := none, agentId := none, elevenDialed := false, elevenOpen := false,
    metrics := m }

/-- Run a list of events through the session, collecting all outputs. -/
def runSession (cfg : Config) (st : SessionState) : List Event → SessionState × List Output
  | [] => (st, [])
  | e :: rest =>
      let r := step cfg st e
      let r2 := runSession cfg r.fst rest
      (r2.fst, r.snd ++ r2.snd)

/-- Test for an envelope (media or mark) sent to the inbound leg. -/
def isTwAudioOut : Output → Bool
  | .toTwilio _ => true
  | _ => false

/-- Test for an outbound-leg dial action. -/
def isDialOut : Output → Bool
  | .dialEleven _ => true
  | _ => false

/-- Test for closing the inbound leg with the policy-violation code 1008. -/
def isCloseTw1008 : Output → Bool
  | .closeTwilio c _ => c == 1008
  | _ => false

/-- Event that is a start envelope assigning a truthy stream identifier. -/
def assignsSid : Event → Bool
  | .twilio (.start s) => truthyS (startSidOf s)
  | _ => false

/-- Authentication failure condition of the claim: configured account
identifier mismatch, or no resolvable agent identifier, or no token among the
custom parameters. -/
abbrev failsAuth (cfg : Config) (s : StartMsg) : Prop :=
  acctMismatch cfg s = true ∨ truthyS (resolvedAgent cfg s) = false ∨ tokenOf s = none

/-- Metrics object with all counters zero, the process boot state
(src/server.js:12). -/
def metrics0 : Metrics := ⟨0, 0, 0, 0, 0, 0⟩

/-- Base64 payload of 160 mu-law silence bytes `0xFF`, the end-to-end test
vector of the spec. -/
def silencePayload : String := String.mk (b64Encode (List.replicate 160 255))

/-- A five-byte (odd length) 16-bit PCM payload, base64 encoded. -/
def oddPcmPayload : String := String.mk (b64Encode [1, 2, 3, 4, 5])

/-- Decoding a character produced by the encoder recovers its 6-bit value. -/
theorem b64Idx_b64Char : ∀ n < 64, b64Idx (b64Char n) = some n := by decide

/-- Padding characters are skipped by the decoder. -/
theorem b64Idx_pad : b64Idx '=' = none := by decide

/-- Base64 decoding inverts base64 encoding on byte lists. -/
theorem b64_regroup_encode :
    ∀ l : List Nat, (∀ b ∈ l, b < 256) → b64Regroup ((b64Encode l).filterMap b64Idx) = l := by
  intro l
  induction l using b64Encode.induct with
  | case1 => intro h; rfl
  | case2 a =>
      intro h
      have ha : a < 256 := h a (by simp)
      have h1 := b64Idx_b64Char (a / 4) (by omega)
      have h2 := b64Idx_b64Char (a % 4 * 16) (by omega)
      simp only [b64Encode, List.filterMap_cons, h1, h2, b64Idx_pad, List.filterMap_nil,
        b64Regroup]
      simp only [List.cons.injEq, and_true]
      omega
  | case3 a b =>
      intro h
      have ha : a < 256 := h a (by simp)
      have hb : b < 256 := h b (by simp)
      have h1 := b64Idx_b64Char (a / 4) (by omega)
      have h2 := b64Idx_b64Char (a % 4 * 16 + b / 16) (by omega)
      have h3 := b64Idx_b64Char (b % 16 * 4) (by omega)
      simp only [b64Encode, List.filterMap_cons, h1, h2, h3, b64Idx_pad, List.filterMap_nil,
        b64Regroup]
      simp only [List.cons.injEq, and_true]
      omega
  | case4 a b c rest ih =>
      intro h
      have ha : a < 256 := h a (by simp)
      have hb : b < 256 := h b (by simp)
      have hc : c < 256 := h c (by simp)
      have h1 := b64Idx_b64Char (a / 4) (by omega)
      have h2 := b64Idx_b64Char (a % 4 * 16 + b / 16) (by omega)
      have h3 := b64Idx_b64Char (b % 16 * 4 + c / 64) (by omega)
      have h4 := b64Idx_b64Char (c % 64) (by omega)
      have hrest : ∀ x ∈ rest, x < 256 := fun x hx => h x (by simp [hx])
      simp only [b64Encode, List.filterMap_cons, h1, h2, h3, h4, b64Regroup,
        ih hrest]
      simp only [List.cons.injEq, and_true]
      omega

/-- Round trip through the modelled Node base64 codec. -/
theorem b64_roundtrip (l : List Nat) (h : ∀ b ∈ l, b < 256) :
    b64DecodeBytes (String.mk (b64Encode l)) = l := by
  have : (String.mk (b64Encode l)).toList = b64Encode l := rfl
  rw [b64DecodeBytes, this, b64_regroup_encode l h]

/-- The frame-pacer worker is fuel-invariant above the buffer length. -/
theorem chunk160Go_congr :
    ∀ (f1 : Nat) (l : List Nat) (f2 : Nat), l.length ≤ f1 → l.length ≤ f2 →
      chunk160Go f1 l = chunk160Go f2 l := by
  intro f1
  induction f1 with
  | zero =>
      intro l f2 h1 h2
      have hl : l = [] := by cases l with | nil => rfl | cons a t => simp at h1
      subst hl
      cases f2 <;> rfl
  | succ k ih =>
      intro l f2 h1 h2
      cases l with
      | nil => cases f2 <;> rfl
      | cons a t =>
          cases f2 with
          | zero => simp at h2
          | succ k2 =>
              show (a :: t).take 160 :: chunk160Go k ((a :: t).drop 160)
                  = (a :: t).take 160 :: chunk160Go k2 ((a :: t).drop 160)
              have hd : ((a :: t).drop 160).length ≤ k := by
                simp only [List.length_drop, List.length_cons]
                simp only [List.length_cons] at h1
                omega
              have hd2 : ((a :: t).drop 160).length ≤ k2 := by
                simp only [List.length_drop, List.length_cons]
                simp only [List.length_cons] at h2
                omega
              rw [ih _ _ hd hd2]

/-- Unfolding equation of `chunk160` in the shape of the source loop. -/
theorem chunk160_eq (l : List Nat) :
    chunk160 l = if l = [] then [] else l.take 160 :: chunk160 (l.drop 160) := by
  cases l with
  | nil => rfl
  | cons a t =>
      rw [if_neg (by simp)]
      show (a :: t).take 160 :: chunk160Go t.length ((a :: t).drop 160)
          = (a :: t).take 160 :: chunk160Go ((a :: t).drop 160).length ((a :: t).drop 160)
      rw [chunk160Go_congr t.length ((a :: t).drop 160) ((a :: t).drop 160).length
        (by simp only [List.length_drop, List.length_cons]; omega) le_rfl]

/-- Frame-pacer slices concatenate back to the input buffer. -/
theorem chunk160_flatten (l : List Nat) : (chunk160 l).flatten = l := by
  have H : ∀ (n : Nat) (l : List Nat), l.length ≤ n → (chunk160 l).flatten = l := by
    intro n
    induction n with
    | zero =>
        intro l h
        have hl : l = [] := by cases l with | nil => rfl | cons a t => simp at h
        subst hl; rfl
    | succ k ih =>
        intro l h
        rw [chunk160_eq]
        by_cases hl : l = []
        · simp [hl]
        · rw [if_neg hl]
          have hlen : l.length ≠ 0 := fun hz => hl (List.eq_nil_of_length_eq_zero hz)
          rw [List.flatten_cons,
            ih (l.drop 160) (by simp only [List.length_drop]; omega)]
          exact List.take_append_drop 160 l
  exact H l.length l le_rfl

/-- The number of frame-pacer slices is the length divided by 160, rounded up. -/
theorem chunk160_length (l : List Nat) : (chunk160 l).length = (l.length + 159) / 160 := by
  have H : ∀ (n : Nat) (l : List Nat), l.length ≤ n →
      (chunk160 l).length = (l.length + 159) / 160 := by
    intro n
    induction n with
    | zero =>
        intro l h
        have hl : l = [] := by cases l with | nil => rfl | cons a t => simp at h
        subst hl; rfl
    | succ k ih =>
        intro l h
        rw [chunk160_eq]
        by_cases hl : l = []
        · simp [hl]
        · rw [if_neg hl]
          have hlen : l.length ≠ 0 := fun hz => hl (List.eq_nil_of_length_eq_zero hz)
          simp only [List.length_cons,
            ih (l.drop 160) (by simp only [List.length_drop]; omega), List.length_drop]
          omega
  exact H l.length l le_rfl

/-- A nonempty buffer yields at least one slice. -/
theorem chunk160_ne_nil (l : List Nat) (h : l ≠ []) : chunk160 l ≠ [] := by
  rw [chunk160_eq, if_neg h]; simp

/-- Every frame-pacer slice except possibly the last has exactly 160 bytes. -/
theorem chunk160_dropLast (l : List Nat) :
    ∀ c ∈ (chunk160 l).dropLast, c.length = 160 := by
  have H : ∀ (n : Nat) (l : List Nat), l.length ≤ n →
      ∀ c ∈ (chunk160 l).dropLast, c.length = 160 := by
    intro n
    induction n with
    | zero =>
        intro l h
        have hl : l = [] := by cases l with | nil => rfl | cons a t => simp at h
        subst hl; simp [chunk160, chunk160Go]
    | succ k ih =>
        intro l h
        rw [chunk160_eq]
        by_cases hl : l = []
        · simp [hl]
        · rw [if_neg hl]
          by_cases hd : l.drop 160 = []
          · rw [hd]
            simp [chunk160, chunk160Go]
          · intro c hc
            rw [List.dropLast_cons_of_ne_nil (chunk160_ne_nil _ hd)] at hc
            rcases List.mem_cons.mp hc with h1 | h2
            · subst h1
              have hlen : l.length > 160 := by
                have hne : (l.drop 160).length ≠ 0 :=
                  fun hh => hd (List.eq_nil_of_length_eq_zero hh)
                simp only [List.length_drop] at hne
                omega
              simp only [List.length_take]
              omega
            · have hlen : l.length ≠ 0 := fun hz => hl (List.eq_nil_of_length_eq_zero hz)
              exact ih (l.drop 160) (by simp only [List.length_drop]; omega) c h2
  exact H l.length l le_rfl

/-- Membership in a frame-pacer slice is membership in the buffer. -/
theorem mem_of_mem_chunk160 {l c : List Nat} {b : Nat}
    (hc : c ∈ chunk160 l) (hb : b ∈ c) : b ∈ l :=
  chunk160_flatten l ▸ List.mem_flatten.mpr ⟨c, hc, hb⟩

/-- Upsampler output shape: for each adjacent input pair `(a, b)` it emits `a`
then the floor midpoint, and finally the last input sample once. -/
theorem upsampleCore_pairs (x : List Int) :
    ∀ hx : x ≠ [],
      upsampleCore x
        = ((x.zip x.tail).flatMap fun p => [p.fst, (p.fst + p.snd) / 2])
          ++ [x.getLast hx] := by
  induction x using upsampleCore.induct with
  | case1 => intro hx; simp at hx
  | case2 a => intro hx; simp [upsampleCore]
  | case3 a b rest ih =>
      intro hx
      have h2 : (b :: rest) ≠ [] := by simp
      simp only [upsampleCore, ih h2, List.zip_cons_cons, List.tail_cons, List.flatMap_cons,
        List.getLast_cons h2]
      simp

/-- Upsampling a constant signal of length `n+1` gives the constant signal of
length `2(n+1) − 1`. -/
theorem upsampleCore_replicate (n : Nat) (c : Int) :
    upsampleCore (List.replicate (n + 1) c) = List.replicate (2 * (n + 1) - 1) c := by
  induction n with
  | zero => simp [upsampleCore]
  | succ k ih =>
      have hmid : (c + c) / 2 = c := by omega
      have : List.replicate (k + 1 + 1) c = c :: c :: List.replicate k c := by
        simp [List.replicate_succ]
      rw [this]
      have hrec : upsampleCore (c :: c :: List.replicate k c)
          = c :: (c + c) / 2 :: upsampleCore (c :: List.replicate k c) := rfl
      rw [hrec, hmid]
      have : (c :: List.replicate k c) = List.replicate (k + 1) c := by
        simp [List.replicate_succ]
      rw [this, ih]
      have h1 : 2 * (k + 1 + 1) - 1 = (2 * (k + 1) - 1) + 1 + 1 := by omega
      rw [h1]
      simp [List.replicate_succ]

/-- Downsampling an upsampled signal: sample `i` of the result is
`x[i] + ⌊(x[i+1] − x[i])/4⌋`. -/
theorem down_upsampleCore (x : List Int) :
    downsample16kTo8k (upsampleCore x)
      = (x.zip x.tail).map (fun p => p.fst + (p.snd - p.fst) / 4) := by
  induction x using upsampleCore.induct with
  | case1 => rfl
  | case2 a => rfl
  | case3 a b rest ih =>
      have hval : (a + (a + b) / 2) / 2 = a + (b - a) / 4 := by omega
      simp only [upsampleCore, downsample16kTo8k, ih, List.zip_cons_cons, List.tail_cons,
        List.map_cons, hval]

/-- Element access for the zip-with-next map used above. -/
theorem zipmap_getD (f : Int → Int → Int) :
    ∀ (x : List Int) (i : Nat), i + 1 < x.length →
      ((x.zip x.tail).map (fun p => f p.fst p.snd)).getD i 0
        = f (x.getD i 0) (x.getD (i + 1) 0) := by
  intro x
  induction x with
  | nil => intro i h; simp at h
  | cons a t ih =>
      intro i h
      cases t with
      | nil => simp at h
      | cons b r =>
          cases i with
          | zero => simp [List.getD]
          | succ j =>
              have hj : j + 1 < (b :: r).length := by simpa using h
              have := ih j hj
              simpa [List.getD] using this

/-- Bytes produced for one 16-bit sample are in range. -/
theorem int16Bytes_lt (little : Bool) (s : Int) : ∀ b ∈ int16Bytes little s, b < 256 := by
  intro b hb
  have hu : (s % 65536).toNat < 65536 := by omega
  cases little <;> simp [int16Bytes] at hb <;> rcases hb with h | h <;> omega

/-- Reading back the byte pairs written for in-range samples recovers them. -/
theorem pairsToInt16_int16Bytes (little : Bool) (l : List Int)
    (h : ∀ s ∈ l, -32768 ≤ s ∧ s < 32768) :
    pairsToInt16 little (l.flatMap (int16Bytes little)) = l := by
  induction l with
  | nil => rfl
  | cons s t ih =>
      have hs := h s (by simp)
      have ht : ∀ a ∈ t, -32768 ≤ a ∧ a < 32768 := fun a ha => h a (by simp [ha])
      have hrest := ih ht
      cases little with
      | false =>
          have : int16Bytes false s
              = [(s % 65536).toNat / 256, (s % 65536).toNat % 256] := rfl
          simp only [List.flatMap_cons, this, List.cons_append, List.nil_append,
            pairsToInt16, hrest]
          have hval : toInt16 (256 * ((s % 65536).toNat / 256) + (s % 65536).toNat % 256)
              = s := by
            simp only [toInt16]
            split <;> omega
          rw [hval]
          simpa [List.flatMap] using hrest
      | true =>
          have : int16Bytes true s
              = [(s % 65536).toNat % 256, (s % 65536).toNat / 256] := rfl
          simp only [List.flatMap_cons, this, List.cons_append, List.nil_append,
            pairsToInt16, hrest]
          have hval : toInt16 ((s % 65536).toNat % 256 + 256 * ((s % 65536).toNat / 256))
              = s := by
            simp only [toInt16]
            split <;> omega
          rw [hval]
          simpa [List.flatMap] using hrest

/-- Round trip of in-range PCM samples through base64 in either endianness. -/
theorem pcm16_b64_roundtrip (little : Bool) (l : List Int)
    (h : ∀ s ∈ l, -32768 ≤ s ∧ s < 32768) :
    b64Pcm16ToInt16 (int16ToB64Pcm16 l little) little = l := by
  rw [b64Pcm16ToInt16, int16ToB64Pcm16,
    b64_roundtrip _ (fun b hb => by
      rcases List.mem_flatMap.mp hb with ⟨s, hs, hbs⟩
      exact int16Bytes_lt little s b hbs)]
  exact pairsToInt16_int16Bytes little l h

/-- Reducing a pair list with unique names into a JS object keeps it intact. -/
theorem foldl_objInsert_of_nodup :
    ∀ (l acc : List (String × String)), ((acc ++ l).map Prod.fst).Nodup →
      l.foldl (fun a c => objInsert a c.fst c.snd) acc = acc ++ l := by
  intro l
  induction l with
  | nil => intro acc h; simp
  | cons c t ih =>
      intro acc h
      have hnotin : acc.any (fun p => p.fst == c.fst) = false := by
        rw [List.any_eq_false]
        intro p hp
        simp only [beq_iff_eq]
        intro hpc
        have hmem1 : c.fst ∈ acc.map Prod.fst := List.mem_map.mpr ⟨p, hp, hpc⟩
        have hmem2 : c.fst ∈ (c :: t).map Prod.fst := by simp
        rw [List.map_append, List.nodup_append] at h
        exact h.2.2 hmem1 hmem2
      have hins : objInsert acc c.fst c.snd = acc ++ [c] := by
        rw [objInsert, if_neg (by simp [hnotin])]
      rw [List.foldl_cons, hins, ih (acc ++ [c]) (by simpa using h)]
      simp

/-- A start envelope failing any authentication check makes the handler emit
exactly one action, a policy-violation close of the inbound leg, and leaves
the outbound-dial state untouched. -/
theorem twStep_start_fail (cfg : Config) (st : SessionState) (s : StartMsg)
    (hfail : failsAuth cfg s) :
    (twStep cfg st (TwMsgIn.start s)).snd.length = 1
    ∧ (twStep cfg st (TwMsgIn.start s)).snd.all isCloseTw1008 = true
    ∧ (twStep cfg st (TwMsgIn.start s)).snd.all (fun o => !isDialOut o) = true
    ∧ (twStep cfg st (TwMsgIn.start s)).fst.elevenDialed = st.elevenDialed := by
  by_cases h1 : acctMismatch cfg s
  · simp [twStep, h1, isCloseTw1008, isDialOut]
  · by_cases h2 : truthyS (resolvedAgent cfg s)
    · have h3 : tokenOf s = none := by
        rcases hfail with h | h | h
        · exact absurd h h1
        · rw [h2] at h; exact absurd h (by simp)
        · exact h
      have h4 : truthyS (tokenOf s) = false := by rw [h3]; rfl
      simp [twStep, h1, h2, h4, isCloseTw1008, isDialOut]
    · simp only [Bool.not_eq_true] at h2
      simp [twStep, h1, h2, isCloseTw1008, isDialOut]

/-- Non-start inbound messages and all outbound-leg messages never dial and
never change the dialed flag. -/
theorem twStep_no_dial_nonstart (cfg : Config) (st : SessionState) (m : TwMsgIn)
    (hm : ∀ s, m ≠ TwMsgIn.start s) :
    (twStep cfg st m).snd.all (fun o => !isDialOut o) = true
    ∧ (twStep cfg st m).fst.elevenDialed = st.elevenDialed := by
  cases m with
  | unparseable => simp [twStep]
  | start s => exact absurd rfl (hm s)
  | media payload =>
      by_cases hp : truthyS payload
      · cases hu : upsample8kTo16k ((b64DecodeBytes (payload.getD "")).map muLawDecode) with
        | none => simp [twStep, hp, hu, isDialOut]
        | some pcm16 =>
            by_cases ho : st.elevenOpen
            · simp [twStep, hp, hu, ho, isDialOut]
            · simp only [Bool.not_eq_true] at ho
              simp [twStep, hp, hu, ho, isDialOut]
      · simp only [Bool.not_eq_true] at hp
        simp [twStep, hp]
  | stop =>
      by_cases hd : st.elevenDialed
      · simp [twStep, hd, isDialOut]
      · simp only [Bool.not_eq_true] at hd
        simp [twStep, hd]
  | other => simp [twStep]

/-- The outbound-leg handler never dials and never changes the dialed flag. -/
theorem elStep_no_dial (cfg : Config) (st : SessionState) (now : Nat) (m : ElMsgIn) :
    (elStep cfg st now m).snd.all (fun o => !isDialOut o) = true
    ∧ (elStep cfg st now m).fst.elevenDialed = st.elevenDialed := by
  cases m with
  | unparseable => simp [elStep]
  | ping eventId => cases eventId <;> simp [elStep, isDialOut]
  | audio b64 =>
      by_cases hb : truthyS b64
      · by_cases hs : truthyS st.streamSid
        · constructor
          · rw [List.all_eq_true]
            intro o ho
            simp only [elStep, hb, hs, if_true] at ho
            simp only [sendTwMediaFrames] at ho
            rcases List.mem_append.mp ho with h | h
            · rcases List.mem_map.mp h with ⟨c, _, hc⟩
              rw [← hc]; rfl
            · simp at h; rw [h]; rfl
          · simp [elStep, hb, hs]
        · simp only [Bool.not_eq_true] at hs
          simp [elStep, hb, hs]
      · simp only [Bool.not_eq_true] at hb
        simp [elStep, hb]
  | other => simp [elStep]

/-- In a session whose starts all fail authentication, no step dials and the
dialed flag stays false. -/
theorem runSession_no_dial (cfg : Config) (st : SessionState) (evs : List Event)
    (hD : st.elevenDialed = false)
    (hall : ∀ s, Event.twilio (TwMsgIn.start s) ∈ evs → failsAuth cfg s) :
    (runSession cfg st evs).snd.all (fun o => !isDialOut o) = true
    ∧ (runSession cfg st evs).fst.elevenDialed = false := by
  induction evs generalizing st with
  | nil => simpa [runSession] using hD
  | cons e rest ih =>
      have hstep : (step cfg st e).snd.all (fun o => !isDialOut o) = true
          ∧ (step cfg st e).fst.elevenDialed = false := by
        cases e with
        | twilio m =>
            cases m with
            | start s =>
                have hf := hall s (by simp)
                have := twStep_start_fail cfg st s hf
                exact ⟨this.2.2.1, by rw [show (step cfg st (Event.twilio (TwMsgIn.start s)))
                  = twStep cfg st (TwMsgIn.start s) from rfl, this.2.2.2, hD]⟩
            | unparseable =>
                have := twStep_no_dial_nonstart cfg st TwMsgIn.unparseable (by simp)
                exact ⟨this.1, by rw [show (step cfg st (Event.twilio TwMsgIn.unparseable))
                  = twStep cfg st TwMsgIn.unparseable from rfl, this.2, hD]⟩
            | media p =>
                have := twStep_no_dial_nonstart cfg st (TwMsgIn.media p) (by simp)
                exact ⟨this.1, by rw [show (step cfg st (Event.twilio (TwMsgIn.media p)))
                  = twStep cfg st (TwMsgIn.media p) from rfl, this.2, hD]⟩
            | stop =>
                have := twStep_no_dial_nonstart cfg st TwMsgIn.stop (by simp)
                exact ⟨this.1, by rw [show (step cfg st (Event.twilio TwMsgIn.stop))
                  = twStep cfg st TwMsgIn.stop from rfl, this.2, hD]⟩
            | other =>
                have := twStep_no_dial_nonstart cfg st TwMsgIn.other (by simp)
                exact ⟨this.1, by rw [show (step cfg st (Event.twilio TwMsgIn.other))
                  = twStep cfg st TwMsgIn.other from rfl, this.2, hD]⟩
        | eleven now m => simp [step, hD]
        | elevenOpened => simp [step, hD]
      have hrest := ih (step cfg st e).fst hstep.2
        (fun s hs => hall s (by simp [hs]))
      have hrun : runSession cfg st (e :: rest)
          = ((runSession cfg (step cfg st e).fst rest).fst,
             (step cfg st e).snd ++ (runSession cfg (step cfg st e).fst rest).snd) := rfl
      rw [hrun]
      constructor
      · simp [List.all_append, hstep.1, hrest.1]
      · exact hrest.2

/-- Any media or mark envelope a step sends to the inbound leg requires the
session's stream identifier to be truthy at that step. -/
theorem step_audio_requires_sid (cfg : Config) (st : SessionState) (e : Event) (o : Output)
    (ho : o ∈ (step cfg st e).snd) (haud : isTwAudioOut o = true) :
    truthyS st.streamSid = true := by
  cases e with
  | twilio m =>
      exfalso
      cases m with
      | unparseable => simp [step, twStep] at ho
      | start s =>
          by_cases h1 : acctMismatch cfg s
          · simp [step, twStep, h1] at ho
            rw [ho] at haud; exact absurd haud (by simp [isTwAudioOut])
          · by_cases h2 : truthyS (resolvedAgent cfg s)
            · by_cases h3 : truthyS (tokenOf s)
              · simp [step, twStep, h1, h2, h3] at ho
                rw [ho] at haud; exact absurd haud (by simp [isTwAudioOut])
              · simp only [Bool.not_eq_true] at h3
                simp [step, twStep, h1, h2, h3] at ho
                rw [ho] at haud; exact absurd haud (by simp [isTwAudioOut])
            · simp only [Bool.not_eq_true] at h2
              simp [step, twStep, h1, h2] at ho
              rw [ho] at haud; exact absurd haud (by simp [isTwAudioOut])
      | media payload =>
          by_cases hp : truthyS payload
          · cases hu : upsample8kTo16k ((b64DecodeBytes (payload.getD "")).map muLawDecode) with
            | none => simp [step, twStep, hp, hu] at ho
            | some pcm16 =>
                by_cases hop : st.elevenOpen
                · simp [step, twStep, hp, hu, hop] at ho
                  rw [ho] at haud; exact absurd haud (by simp [isTwAudioOut])
                · simp only [Bool.not_eq_true] at hop
                  simp [step, twStep, hp, hu, hop] at ho
          · simp only [Bool.not_eq_true] at hp
            simp [step, twStep, hp] at ho
      | stop =>
          by_cases hd : st.elevenDialed
          · simp [step, twStep, hd] at ho
            rw [ho] at haud; exact absurd haud (by simp [isTwAudioOut])
          · simp only [Bool.not_eq_true] at hd
            simp [step, twStep, hd] at ho
      | other => simp [step, twStep] at ho
  | eleven now m =>
      by_cases hd : st.elevenDialed
      · cases m with
        | unparseable => exfalso; simp [step, elStep, hd] at ho
        | ping eventId =>
            exfalso
            cases eventId with
            | none => simp [step, elStep, hd] at ho
            | some eid =>
                simp [step, elStep, hd] at ho
                rw [ho] at haud; exact absurd haud (by simp [isTwAudioOut])
        | audio b64 =>
            by_cases hb : truthyS b64
            · by_cases hs : truthyS st.streamSid
              · exact hs
              · exfalso
                simp only [Bool.not_eq_true] at hs
                simp [step, elStep, hd, hb, hs] at ho
            · exfalso
              simp only [Bool.not_eq_true] at hb
              simp [step, elStep, hd, hb] at ho
        | other => exfalso; simp [step, elStep, hd] at ho
      · exfalso
        simp only [Bool.not_eq_true] at hd
        simp [step, hd] at ho
  | elevenOpened =>
      exfalso
      by_cases hd : st.elevenDialed
      · simp [step, hd] at ho
      · simp only [Bool.not_eq_true] at hd
        simp [step, hd] at ho

/-- A step leaves the stream identifier unchanged unless the event is a start
envelope, which overwrites it with the identifier that start computes. -/
theorem step_sid_provenance (cfg : Config) (st : SessionState) (e : Event)
    (h : truthyS (step cfg st e).fst.streamSid = true) :
    truthyS st.streamSid = true ∨ assignsSid e = true := by
  cases e with
  | twilio m =>
      cases m with
      | unparseable => exact Or.inl h
      | start s =>
          right
          have hsid : (step cfg st (Event.twilio (TwMsgIn.start s))).fst.streamSid
              = startSidOf s := by
            by_cases h1 : acctMismatch cfg s
            · simp [step, twStep, h1]
            · by_cases h2 : truthyS (resolvedAgent cfg s)
              · by_cases h3 : truthyS (tokenOf s)
                · simp [step, twStep, h1, h2, h3]
                · simp only [Bool.not_eq_true] at h3
                  simp [step, twStep, h1, h2, h3]
              · simp only [Bool.not_eq_true] at h2
                simp [step, twStep, h1, h2]
          rw [hsid] at h
          simpa [assignsSid] using h
      | media payload =>
          left
          by_cases hp : truthyS payload
          · cases hu : upsample8kTo16k ((b64DecodeBytes (payload.getD "")).map muLawDecode) with
            | none => simpa [step, twStep, hp, hu] using h
            | some pcm16 =>
                by_cases hop : st.elevenOpen
                · simpa [step, twStep, hp, hu, hop] using h
                · simp only [Bool.not_eq_true] at hop
                  simpa [step, twStep, hp, hu, hop] using h
          · simp only [Bool.not_eq_true] at hp
            simpa [step, twStep, hp] using h
      | stop =>
          left
          by_cases hd : st.elevenDialed
          · simpa [step, twStep, hd] using h
          · simp only [Bool.not_eq_true] at hd
            simpa [step, twStep, hd] using h
      | other => exact Or.inl h
  | eleven now m =>
      left
      by_cases hd : st.elevenDialed
      · cases m with
        | unparseable => simpa [step, elStep, hd] using h
        | ping eventId =>
            cases eventId with
            | none => simpa [step, elStep, hd] using h
            | some eid => simp only [step, elStep, hd] at h; exact h
        | audio b64 =>
            by_cases hb : truthyS b64
            · by_cases hs : truthyS st.streamSid
              · exact hs
              · simp only [Bool.not_eq_true] at hs
                simp [step, elStep, hd, hb, hs] at h
            · simp only [Bool.not_eq_true] at hb
              simpa [step, elStep, hd, hb] using h
        | other => simpa [step, elStep, hd] using h
      · simp only [Bool.not_eq_true] at hd
        simpa [step, hd] using h
  | elevenOpened =>
      left
      by_cases hd : st.elevenDialed
      · simpa [step, hd] using h
      · simp only [Bool.not_eq_true] at hd
        simpa [step, hd] using h

/-- A truthy stream identifier after a run means it was truthy before or some
event of the run was a start envelope assigning one. -/
theorem runSession_sid_provenance (cfg : Config) (st : SessionState) (evs : List Event)
    (h : truthyS (runSession cfg st evs).fst.streamSid = true) :
    truthyS st.streamSid = true ∨ evs.any assignsSid = true := by
  induction evs generalizing st with
  | nil => exact Or.inl (by simpa [runSession] using h)
  | cons e rest ih =>
      have hrun : (runSession cfg st (e :: rest)).fst
          = (runSession cfg (step cfg st e).fst rest).fst := rfl
      rw [hrun] at h
      rcases ih (step cfg st e).fst h with h1 | h2
      · rcases step_sid_provenance cfg st e h1 with ha | hb
        · exact Or.inl ha
        · exact Or.inr (by simp [hb])
      · exact Or.inr (by simp [h2])

/-- C2 counterexample: for the input `[0, 8]` the round trip
`downsample16kTo8k (upsample8kTo16k x)` yields `[2]`, whose (non-last) sample
0 differs from `x[0] = 0` by 2, violating the claimed ±1 bound. -/
theorem c2_roundtrip_counterexample :
    upsample8kTo16k [0, 8] = some [0, 4, 8]
    ∧ downsample16kTo8k [0, 4, 8] = [2]
    ∧ ¬ (((downsample16kTo8k ((upsample8kTo16k [0, 8]).getD [])).getD 0 0
          - ([0, 8] : List Int).getD 0 0).natAbs ≤ 1) := by decide

/-- C2 amended: for a non-empty 8kHz sequence `x`, the round trip has length
`n − 1` and its sample `i` equals `x[i] + ⌊(x[i+1] − x[i])/4⌋` exactly; hence
the reconstruction is within ±1 of `x[i]` whenever adjacent input samples
differ by at most 4, but not in general. -/
theorem c2_down_up_exact (x : List Int) (hx : x ≠ []) :
    downsample16kTo8k ((upsample8kTo16k x).getD [])
      = (x.zip x.tail).map (fun p => p.fst + (p.snd - p.fst) / 4)
    ∧ (downsample16kTo8k ((upsample8kTo16k x).getD [])).length = x.length - 1
    ∧ (∀ i, i + 1 < x.length →
        (downsample16kTo8k ((upsample8kTo16k x).getD [])).getD i 0
          = x.getD i 0 + (x.getD (i + 1) 0 - x.getD i 0) / 4)
    ∧ (∀ i, i + 1 < x.length → (x.getD (i + 1) 0 - x.getD i 0).natAbs ≤ 4 →
        ((downsample16kTo8k ((upsample8kTo16k x).getD [])).getD i 0
          - x.getD i 0).natAbs ≤ 1) := by
  have hup : (upsample8kTo16k x).getD [] = upsampleCore x := by
    simp [upsample8kTo16k, hx]
  rw [hup, down_upsampleCore]
  refine ⟨rfl, ?_, ?_, ?_⟩
  · cases x with
    | nil => simp
    | cons a t => simp [List.length_zip]
  · intro i hi
    exact zipmap_getD (fun a b => a + (b - a) / 4) x i hi
  · intro i hi hle
    rw [zipmap_getD (fun a b => a + (b - a) / 4) x i hi]
    omega

/-- C2 witness at `x = [0, 4]`, sample 0: the round trip reproduces sample 0
with error ⌊4/4⌋ = 1. -/
theorem c2_down_up_exact_witness :
    (([0, 4] : List Int) ≠ [])
    ∧ (downsample16kTo8k ((upsample8kTo16k [0, 4]).getD [])).getD 0 0
        = ([0, 4] : List Int).getD 0 0
          + (([0, 4] : List Int).getD 1 0 - ([0, 4] : List Int).getD 0 0) / 4 :=
  ⟨by decide, (c2_down_up_exact [0, 4] (by decide)).2.2.1 0 (by decide)⟩

/-- C6: the source decoder reconstructs magnitude `((m<<1)+1) << (e+2)`,
dropping the `0x84 << e` term of G.711, so `decode` disagrees with the
documented codec and re-encoding does not stay within the band quantization
step: byte `0xFF` (exponent band 0, step `2^3 = 8`) decodes to −128 and
re-encodes to byte 111 which decodes to 124, an error of 252 > 8; byte `0x00`
(band 7, step `2^10 = 1024`) decodes to −15740 with round-trip error
7936 > 1024.  Under G.711, `decode 0xFF = 0` and the claimed bound holds. -/
theorem c6_mulaw_roundtrip_failure :
    muLawDecode 255 = -128
    ∧ muLawEncode (muLawDecode 255) = 111
    ∧ muLawDecode 111 = 124
    ∧ ((255 - 255 % 256) >>> 4) &&& 0x07 = 0
    ∧ ¬ ((muLawDecode (muLawEncode (muLawDecode 255)) - muLawDecode 255).natAbs
          ≤ 2 ^ (0 + 3))
    ∧ muLawDecode 0 = -15740
    ∧ muLawDecode (muLawEncode (muLawDecode 0)) = -7804
    ∧ ((255 - 0 % 256) >>> 4) &&& 0x07 = 7
    ∧ ¬ ((muLawDecode (muLawEncode (muLawDecode 0)) - muLawDecode 0).natAbs
          ≤ 2 ^ (7 + 3)) := by decide

/-- C8 counterexample: a media envelope carrying the empty base64 payload
(the base64 encoding of zero bytes) is skipped by the branch guard
`msg.media?.payload`, so `chunksFromTwilio` is not incremented. -/
theorem c8_media_metrics_counterexample :
    ¬ ((twStep ⟨none, none, true⟩ (initState metrics0)
          (TwMsgIn.media (some ""))).fst.metrics.chunksFromTwilio
        = (initState metrics0).metrics.chunksFromTwilio + 1) := by decide

/-- C8 amended: processing a media envelope carrying a non-empty base64
payload adds exactly the decoded byte count (not the base64 string length) to
`bytesFromTwilio` and exactly 1 to `chunksFromTwilio`. -/
theorem c8_media_metrics (cfg : Config) (st : SessionState) (p : String) (hp : p ≠ "") :
    (twStep cfg st (TwMsgIn.media (some p))).fst.metrics.bytesFromTwilio
      = st.metrics.bytesFromTwilio + (b64DecodeBytes p).length
    ∧ (twStep cfg st (TwMsgIn.media (some p))).fst.metrics.chunksFromTwilio
      = st.metrics.chunksFromTwilio + 1 := by
  have hp2 : truthyS (some p) = true := by simp [truthyS, hp]
  cases hu : upsample8kTo16k ((b64DecodeBytes p).map muLawDecode) with
  | none => constructor <;> simp [twStep, hp2, hu]
  | some pcm16 =>
      by_cases hop : st.elevenOpen
      · constructor <;> simp [twStep, hp2, hu, hop]
      · simp only [Bool.not_eq_true] at hop
        constructor <;> simp [twStep, hp2, hu, hop]

/-- C8 witness at the payload `"AAAA"` (decoding to three zero bytes). -/
theorem c8_media_metrics_witness :
    ("AAAA" ≠ "")
    ∧ ((twStep ⟨none, none, true⟩ (initState metrics0)
          (TwMsgIn.media (some "AAAA"))).fst.metrics.bytesFromTwilio
        = (initState metrics0).metrics.bytesFromTwilio + (b64DecodeBytes "AAAA").length
      ∧ (twStep ⟨none, none, true⟩ (initState metrics0)
          (TwMsgIn.media (some "AAAA"))).fst.metrics.chunksFromTwilio
        = (initState metrics0).metrics.chunksFromTwilio + 1) :=
  ⟨by decide, c8_media_metrics ⟨none, none, true⟩ (initState metrics0) "AAAA" (by decide)⟩

/-- C9: the array-of-pairs wire form and the flat-object wire form of the
custom parameters normalize to the same lookup structure, and an absent field
normalizes to the empty mapping. -/
theorem c9_custom_params_normalize (l : List (String × String))
    (hnd : (l.map Prod.fst).Nodup) :
    getCustomParams (some (CustomParams.arr l)) = getCustomParams (some (CustomParams.obj l))
    ∧ getCustomParams none = [] := by
  refine ⟨?_, rfl⟩
  show l.foldl (fun a c => objInsert a c.fst c.snd) [] = l
  simpa using foldl_objInsert_of_nodup l [] (by simpa using hnd)

/-- C9 witness at a two-entry parameter list. -/
theorem c9_custom_params_normalize_witness :
    (([("agent_id", "a"), ("token", "t")].map Prod.fst).Nodup
    ∧ (getCustomParams (some (CustomParams.arr [("agent_id", "a"), ("token", "t")]))
        = getCustomParams (some (CustomParams.obj [("agent_id", "a"), ("token", "t")]))
      ∧ getCustomParams none = [])) :=
  ⟨by decide, c9_custom_params_normalize [("agent_id", "a"), ("token", "t")] (by decide)⟩

/-- C10: `upsample8kTo16k` throws exactly on the empty sample sequence, so a
media envelope whose payload decodes to zero bytes is dropped by the catch —
no user_audio_chunk is forwarded — while the metrics mutations made before
the throw survive; every input of length at least 1 returns normally. -/
theorem c10_upsample_empty_throw (x : List Int) (cfg : Config) (st : SessionState)
    (p : Option String) (hp : truthyS p = true)
    (hz : b64DecodeBytes (p.getD "") = []) :
    (upsample8kTo16k x = none ↔ x = [])
    ∧ (x ≠ [] → ∃ y, upsample8kTo16k x = some y)
    ∧ (twStep cfg st (TwMsgIn.media p)).snd = []
    ∧ (twStep cfg st (TwMsgIn.media p)).fst.metrics.chunksFromTwilio
        = st.metrics.chunksFromTwilio + 1
    ∧ (twStep cfg st (TwMsgIn.media p)).fst.metrics.bytesFromTwilio
        = st.metrics.bytesFromTwilio := by
  refine ⟨?_, ?_, ?_, ?_, ?_⟩
  · constructor
    · intro h
      by_contra hne
      simp [upsample8kTo16k, hne] at h
    · intro h
      simp [upsample8kTo16k, h]
  · intro h
    exact ⟨upsampleCore x, by simp [upsample8kTo16k, h]⟩
  · simp [twStep, hp, hz, upsample8kTo16k]
  · simp [twStep, hp, hz, upsample8kTo16k]
  · simp [twStep, hp, hz, upsample8kTo16k]

/-- C10 witness: the payload `"A"` is truthy yet decodes to zero bytes; the
envelope is counted but dropped, and the one-sample input returns normally. -/
theorem c10_upsample_empty_throw_witness :
    truthyS (some "A") = true
    ∧ b64DecodeBytes ((some "A").getD "") = []
    ∧ ((upsample8kTo16k [1] = none ↔ ([1] : List Int) = [])
      ∧ (([1] : List Int) ≠ [] → ∃ y, upsample8kTo16k [1] = some y)
      ∧ (twStep ⟨none, none, true⟩ (initState metrics0) (TwMsgIn.media (some "A"))).snd = []
      ∧ (twStep ⟨none, none, true⟩ (initState metrics0)
          (TwMsgIn.media (some "A"))).fst.metrics.chunksFromTwilio
          = (initState metrics0).metrics.chunksFromTwilio + 1
      ∧ (twStep ⟨none, none, true⟩ (initState metrics0)
          (TwMsgIn.media (some "A"))).fst.metrics.bytesFromTwilio
          = (initState metrics0).metrics.bytesFromTwilio) :=
  ⟨by decide, by decide,
    c10_upsample_empty_throw [1] ⟨none, none, true⟩ (initState metrics0) (some "A")
      (by decide) (by decide)⟩

/-- C3: a start envelope failing authentication (configured account mismatch,
unresolvable agent identifier, or token absent from the custom parameters)
makes the handler emit exactly one action — closing the inbound leg with the
policy-violation code 1008 — and never a dial; moreover in a whole session
whose start envelopes all fail authentication, no dial action is ever emitted
and the outbound socket is never constructed. -/
theorem c3_auth_failure_no_dial (cfg : Config) (st : SessionState) (s : StartMsg)
    (hfail : failsAuth cfg s) :
    ((twStep cfg st (TwMsgIn.start s)).snd.length = 1
      ∧ (twStep cfg st (TwMsgIn.start s)).snd.all isCloseTw1008 = true
      ∧ (twStep cfg st (TwMsgIn.start s)).snd.all (fun o => !isDialOut o) = true
      ∧ (twStep cfg st (TwMsgIn.start s)).fst.elevenDialed = st.elevenDialed)
    ∧ ∀ (m0 : Metrics) (evs : List Event),
        (∀ s2, Event.twilio (TwMsgIn.start s2) ∈ evs → failsAuth cfg s2) →
        (runSession cfg (initState m0) evs).snd.all (fun o => !isDialOut o) = true
        ∧ (runSession cfg (initState m0) evs).fst.elevenDialed = false := by
  refine ⟨twStep_start_fail cfg st s hfail, ?_⟩
  intro m0 evs hall
  exact runSession_no_dial cfg (initState m0) evs rfl hall

/-- C3 witness: a start envelope with no fields at all (no token, and no
agent resolvable with an unset default) is closed with 1008, and a session
consisting only of it never dials. -/
theorem c3_auth_failure_no_dial_witness :
    failsAuth ⟨none, none, true⟩ ⟨none, none, none, none⟩
    ∧ (((twStep ⟨none, none, true⟩ (initState metrics0)
          (TwMsgIn.start ⟨none, none, none, none⟩)).snd.length = 1
      ∧ (twStep ⟨none, none, true⟩ (initState metrics0)
          (TwMsgIn.start ⟨none, none, none, none⟩)).snd.all isCloseTw1008 = true
      ∧ (twStep ⟨none, none, true⟩ (initState metrics0)
          (TwMsgIn.start ⟨none, none, none, none⟩)).snd.all (fun o => !isDialOut o) = true
      ∧ (twStep ⟨none, none, true⟩ (initState metrics0)
          (TwMsgIn.start ⟨none, none, none, none⟩)).fst.elevenDialed
          = (initState metrics0).elevenDialed)
    ∧ ∀ (m0 : Metrics) (evs : List Event),
        (∀ s2, Event.twilio (TwMsgIn.start s2) ∈ evs → failsAuth ⟨none, none, true⟩ s2) →
        (runSession ⟨none, none, true⟩ (initState m0) evs).snd.all
          (fun o => !isDialOut o) = true
        ∧ (runSession ⟨none, none, true⟩ (initState m0) evs).fst.elevenDialed = false) :=
  ⟨by decide,
    c3_auth_failure_no_dial ⟨none, none, true⟩ (initState metrics0)
      ⟨none, none, none, none⟩ (by decide)⟩

/-- C4: for a compressed-audio buffer of `N` bytes the frame pacer emits the
media envelopes of the 160-byte slices followed by exactly one mark envelope;
there are `⌈N/160⌉` media envelopes, their base64-decoded payload lengths sum
to exactly `N`, every slice except possibly the last has 160 bytes, and the
slices concatenate back to the buffer in order. -/
theorem c4_frame_pacer (sid : Option String) (now : Nat) (buf : List Nat)
    (h256 : ∀ b ∈ buf, b < 256) :
    (sendTwMediaFrames sid now buf).fst
      = (chunk160 buf).map
          (fun c => Output.toTwilio (TwEnvelope.media sid (String.mk (b64Encode c))))
        ++ [Output.toTwilio (TwEnvelope.mark sid ("ll-" ++ toString now))]
    ∧ (chunk160 buf).length = (buf.length + 159) / 160
    ∧ ((chunk160 buf).map
        (fun c => (b64DecodeBytes (String.mk (b64Encode c))).length)).sum = buf.length
    ∧ (∀ c ∈ (chunk160 buf).dropLast, c.length = 160)
    ∧ (chunk160 buf).flatten = buf := by
  refine ⟨rfl, chunk160_length buf, ?_, chunk160_dropLast buf, chunk160_flatten buf⟩
  have hmap : (chunk160 buf).map
      (fun c => (b64DecodeBytes (String.mk (b64Encode c))).length)
      = (chunk160 buf).map List.length := by
    apply List.map_congr_left
    intro c hc
    rw [b64_roundtrip c (fun b hb => h256 b (mem_of_mem_chunk160 hc hb))]
  rw [hmap, ← List.length_flatten, chunk160_flatten]

set_option maxRecDepth 100000 in
/-- C4 witness at a 161-byte buffer: two media envelopes (160 + 1 bytes) and
one mark. -/
theorem c4_frame_pacer_witness :
    (∀ b ∈ List.replicate 161 7, b < 256)
    ∧ ((sendTwMediaFrames (some "S") 0 (List.replicate 161 7)).fst
        = (chunk160 (List.replicate 161 7)).map
            (fun c => Output.toTwilio (TwEnvelope.media (some "S")
              (String.mk (b64Encode c))))
          ++ [Output.toTwilio (TwEnvelope.mark (some "S") ("ll-" ++ toString 0))]
      ∧ (chunk160 (List.replicate 161 7)).length
          = ((List.replicate 161 7).length + 159) / 160
      ∧ ((chunk160 (List.replicate 161 7)).map
          (fun c => (b64DecodeBytes (String.mk (b64Encode c))).length)).sum
          = (List.replicate (α := Nat) 161 7).length
      ∧ (∀ c ∈ (chunk160 (List.replicate 161 7)).dropLast, c.length = 160)
      ∧ (chunk160 (List.replicate 161 7)).flatten = List.replicate 161 7) :=
  ⟨by decide, c4_frame_pacer (some "S") 0 (List.replicate 161 7) (by decide)⟩

/-- C5: if any step of a session — run from a fresh state over an arbitrary
prefix of events — sends a media or mark envelope to the inbound leg, then
some event of that prefix was a start envelope assigning a truthy stream
identifier; no audio is ever sent on a session whose identifier is
unassigned. -/
theorem c5_audio_only_after_sid (cfg : Config) (m0 : Metrics) (pre : List Event)
    (e : Event) (o : Output)
    (ho : o ∈ (step cfg (runSession cfg (initState m0) pre).fst e).snd)
    (haud : isTwAudioOut o = true) :
    pre.any assignsSid = true := by
  have h1 := step_audio_requires_sid cfg _ e o ho haud
  rcases runSession_sid_provenance cfg (initState m0) pre h1 with h2 | h2
  · simp [initState, truthyS] at h2
  · exact h2

/-- C5 witness: after a successful start assigning sid `"S1"`, an
outbound-leg audio message makes the session send a mark envelope, and the
theorem traces it back to the assigning start. -/
theorem c5_audio_only_after_sid_witness :
    Output.toTwilio (TwEnvelope.mark (some "S1") "ll-0")
      ∈ (step ⟨none, none, true⟩
          (runSession ⟨none, none, true⟩ (initState metrics0)
            [Event.twilio (TwMsgIn.start
              ⟨some "S1", none, none,
                some (CustomParams.arr [("agent_id", "a"), ("token", "t")])⟩)]).fst
          (Event.eleven 0 (ElMsgIn.audio (some "AAAA")))).snd
    ∧ isTwAudioOut (Output.toTwilio (TwEnvelope.mark (some "S1") "ll-0")) = true
    ∧ [Event.twilio (TwMsgIn.start
        ⟨some "S1", none, none,
          some (CustomParams.arr [("agent_id", "a"), ("token", "t")])⟩)].any
        assignsSid = true :=
  ⟨by decide, by decide,
    c5_audio_only_after_sid ⟨none, none, true⟩ metrics0
      [Event.twilio (TwMsgIn.start
        ⟨some "S1", none, none,
          some (CustomParams.arr [("agent_id", "a"), ("token", "t")])⟩)]
      (Event.eleven 0 (ElMsgIn.audio (some "AAAA")))
      (Output.toTwilio (TwEnvelope.mark (some "S1") "ll-0"))
      (by decide) (by decide)⟩

set_option maxRecDepth 100000 in
/-- C7 counterexample: an outbound-leg audio message whose base64 payload
decodes to five bytes (an odd byte count, so not a whole number of 16-bit PCM
samples) is not dropped: on a session with an assigned stream identifier the
handler forwards audio built from the first two samples (the trailing byte is
silently ignored) and emits envelopes to the inbound leg. -/
theorem c7_odd_pcm_counterexample :
    (b64DecodeBytes oddPcmPayload).length % 2 = 1
    ∧ (elStep ⟨none, none, true⟩
        ⟨some "S", some "a", true, true, metrics0⟩ 0
        (ElMsgIn.audio (some oddPcmPayload))).snd ≠ []
    ∧ (elStep ⟨none, none, true⟩
        ⟨some "S", some "a", true, true, metrics0⟩ 0
        (ElMsgIn.audio (some oddPcmPayload))).snd.any isTwAudioOut = true := by
  refine ⟨by decide, ?_, by decide⟩
  decide

/-- C7 amended: no message on either leg ever escapes the per-message
handler: frames that throw inside the body (unparseable JSON) or match no
branch are dropped with the state unchanged; a truthy payload decoding to
zero bytes is dropped by the catch keeping only its metrics mutations; an
audio payload — including one of odd byte length — is processed through the
truncating PCM pipeline rather than dropped; and processing always continues
with the remaining events from the resulting state. -/
theorem c7_exception_containment (cfg : Config) (st : SessionState) (now : Nat)
    (rest : List Event) :
    twStep cfg st TwMsgIn.unparseable = (st, [])
    ∧ elStep cfg st now ElMsgIn.unparseable = (st, [])
    ∧ twStep cfg st (TwMsgIn.media none) = (st, [])
    ∧ twStep cfg st (TwMsgIn.media (some "")) = (st, [])
    ∧ twStep cfg st TwMsgIn.other = (st, [])
    ∧ elStep cfg st now (ElMsgIn.ping none) = (st, [])
    ∧ elStep cfg st now ElMsgIn.other = (st, [])
    ∧ (∀ p : Option String, truthyS p = true → b64DecodeBytes (p.getD "") = [] →
        (twStep cfg st (TwMsgIn.media p)).snd = [])
    ∧ (∀ b64s : String, truthyS (some b64s) = true → truthyS st.streamSid = true →
        (elStep cfg st now (ElMsgIn.audio (some b64s))).snd
          = (sendTwMediaFrames st.streamSid now
              (pcm8kToMuLawBuffer (downsample16kTo8k
                (b64Pcm16ToInt16 b64s cfg.elevenLE)))).fst)
    ∧ (∀ e : Event, (runSession cfg st (e :: rest)).snd
        = (step cfg st e).snd ++ (runSession cfg (step cfg st e).fst rest).snd) := by
  refine ⟨rfl, rfl, rfl, ?_, rfl, rfl, rfl, ?_, ?_, fun e => rfl⟩
  · simp [twStep, truthyS]
  · intro p hp hz
    simp [twStep, hp, hz, upsample8kTo16k]
  · intro b64s hb hs
    simp [elStep, hb, hs]

/-- C7 witness: the contained branches evaluated on a concrete session state,
projected at the truthy-but-empty payload `"A"`. -/
theorem c7_exception_containment_witness :
    (twStep ⟨none, none, true⟩ (initState metrics0)
      (TwMsgIn.media (some "A"))).snd = [] :=
  (c7_exception_containment ⟨none, none, true⟩ (initState metrics0) 0 []).2.2.2.2.2.2.2.1
    (some "A") (by decide) (by decide)

set_option maxRecDepth 100000 in
/-- C1 counterexample: the end-to-end silence vector — 160 mu-law `0xFF`
bytes — upsamples to `2·160 − 1 = 319` samples, not the 320 samples the claim
states. -/
theorem c1_length_counterexample :
    ((upsample8kTo16k ((b64DecodeBytes silencePayload).map muLawDecode)).getD []).length
      ≠ 320
    ∧ ((upsample8kTo16k ((b64DecodeBytes silencePayload).map muLawDecode)).getD []).length
      = 319 := by
  constructor <;> decide

set_option maxRecDepth 100000 in
/-- C1 amended: the upsampler emits, for each adjacent pair `(a, b)`, the
sample `a` then the floor midpoint, and the final sample once more; and the
silence media envelope yields a `user_audio_chunk` whose PCM payload has
`2·160 − 1 = 319` samples, every one equal to −128 (near zero: the codec's
bias puts silence at −128 rather than 0). -/
theorem c1_upsample_and_silence (cfg : Config) (st : SessionState)
    (hopen : st.elevenOpen = true) :
    (∀ (x : List Int) (hx : x ≠ []),
        upsample8kTo16k x
          = some (((x.zip x.tail).flatMap fun p => [p.fst, (p.fst + p.snd) / 2])
              ++ [x.getLast hx]))
    ∧ (twStep cfg st (TwMsgIn.media (some silencePayload))).snd
        = [Output.toEleven (ElevenOut.userAudioChunk
            (int16ToB64Pcm16 (List.replicate 319 (-128)) cfg.elevenLE))]
    ∧ (b64Pcm16ToInt16 (int16ToB64Pcm16 (List.replicate 319 (-128)) cfg.elevenLE)
        cfg.elevenLE).length = 2 * 160 - 1
    ∧ (∀ smp ∈ b64Pcm16ToInt16 (int16ToB64Pcm16 (List.replicate 319 (-128)) cfg.elevenLE)
        cfg.elevenLE, smp = (-128 : Int) ∧ smp.natAbs ≤ 132) := by
  have hdec : b64DecodeBytes silencePayload = List.replicate 160 255 :=
    b64_roundtrip _ (by
      intro b hb
      rw [List.mem_replicate] at hb
      omega)
  have hmap : (List.replicate 160 255).map muLawDecode = List.replicate 160 (-128) := by
    rw [List.map_replicate]
    norm_num [show muLawDecode 255 = -128 by decide]
  have hup : upsample8kTo16k (List.replicate 160 (-128)) = some (List.replicate 319 (-128)) := by
    rw [upsample8kTo16k, if_neg (by simp)]
    rw [show (160 : Nat) = 159 + 1 by rfl, upsampleCore_replicate 159 (-128)]
  have hrt : b64Pcm16ToInt16 (int16ToB64Pcm16 (List.replicate 319 (-128)) cfg.elevenLE)
      cfg.elevenLE = List.replicate 319 (-128) :=
    pcm16_b64_roundtrip cfg.elevenLE _ (by
      intro s hs
      rw [List.mem_replicate] at hs
      omega)
  refine ⟨?_, ?_, ?_, ?_⟩
  · intro x hx
    rw [upsample8kTo16k, if_neg hx, upsampleCore_pairs x hx]
  · have hp : truthyS (some silencePayload) = true := by decide
    simp only [twStep, hp, if_true, Option.getD_some, hdec, hmap, hup, hopen]
  · rw [hrt, List.length_replicate]
  · rw [hrt]
    intro smp hs
    rw [List.mem_replicate] at hs
    exact ⟨hs.2, by rw [hs.2]; decide⟩

/-- C1 witness: the amended end-to-end statement at a concrete open session
with the little-endian configuration. -/
theorem c1_upsample_and_silence_witness :
    (({ initState metrics0 with elevenOpen := true } : SessionState).elevenOpen = true)
    ∧ ((∀ (x : List Int) (hx : x ≠ []),
        upsample8kTo16k x
          = some (((x.zip x.tail).flatMap fun p => [p.fst, (p.fst + p.snd) / 2])
              ++ [x.getLast hx]))
    ∧ (twStep ⟨none, none, true⟩ { initState metrics0 with elevenOpen := true }
        (TwMsgIn.media (some silencePayload))).snd
        = [Output.toEleven (ElevenOut.userAudioChunk
            (int16ToB64Pcm16 (List.replicate 319 (-128))
              (⟨none, none, true⟩ : Config).elevenLE))]
    ∧ (b64Pcm16ToInt16 (int16ToB64Pcm16 (List.replicate 319 (-128))
          (⟨none, none, true⟩ : Config).elevenLE)
        (⟨none, none, true⟩ : Config).elevenLE).length = 2 * 160 - 1
    ∧ (∀ smp ∈ b64Pcm16ToInt16 (int16ToB64Pcm16 (List.replicate 319 (-128))
          (⟨none, none, true⟩ : Config).elevenLE)
        (⟨none, none, true⟩ : Config).elevenLE, smp = (-128 : Int) ∧ smp.natAbs ≤ 132)) :=
  ⟨rfl, c1_upsample_and_silence ⟨none, none, true⟩
    { initState metrics0 with elevenOpen := true } rfl⟩

end Bridge
